import Mathlib

/-!
Verification development for the bonbon NFT replay engine.

The definitions below are a shallow embedding of the Rust sources
`bonbon/src/partition.rs`, `bonbon/src/assemble.rs` and the driver code in
`chocolatier/src/main.rs`.  Machine integers (`u8`, `u64`, `usize`) are
modelled as `Nat` (the code only compares and copies them; no overflow is
relevant), 32-byte addresses (`Pubkey`) as an opaque `Key := Nat` with
decidable equality, byte strings as `List Nat`, and fallible Rust functions
returning `Result<_, ErrorCode>` as `Except ErrorCode _`.  Instruction
payload bytes are embedded at the decoded level: the external borsh / spl
codecs are out of scope, so `CompiledInstruction.data` carries the decoded
sum type directly, with a `.raw` constructor standing for payloads that the
relevant decoder rejects (`FailedInstructionDeserialization`).
-/

deriving instance DecidableEq for Except

/-- 32-byte opaque address (`Pubkey`); modelled as `Nat` with equality. -/
abbrev Key := Nat

/-- `Pubkey::default()`, the all-zeroes sentinel key. -/
def keyDefault : Key := 0

/-- Modelled from the spec: `find_metadata_account(mint)` is the external
deterministic program-derived-address function mapping a mint to its
canonical metadata account (glossary of the spec); the mpl crate that
implements it is not part of this repository.  Embedded as a fixed
deterministic injection on the opaque key space. -/
def find_metadata_account (mint : Key) : Key := 2 * mint + 1

/-- `spl_token::id()`: the token program address (external constant). -/
def spl_token_id : Key := 2

/-- `mpl_token_metadata::id()`: the metadata program address (external
constant, distinct from the token program id). -/
def mpl_token_metadata_id : Key := 4

/-- `spl_token::instruction::AuthorityType`. -/
inductive AuthorityType where
  | MintTokens
  | FreezeAccount
  | AccountOwner
  | CloseAccount
deriving DecidableEq, Repr

/-- Decoded `spl_token::instruction::TokenInstruction` (the variants the
sources match on); `amount : u64` and `decimals : u8` are `Nat`. -/
inductive TokenInstruction where
  | InitializeMint (decimals : Nat)
  | InitializeAccount
  | InitializeAccount2
  | InitializeMultisig
  | Transfer (amount : Nat)
  | Approve (amount : Nat)
  | Revoke
  | SetAuthority (authority_type : AuthorityType)
  | MintTo (amount : Nat)
  | Burn (amount : Nat)
  | CloseAccount
  | FreezeAccount
  | ThawAccount
  | TransferChecked (amount : Nat) (decimals : Nat)
  | ApproveChecked (amount : Nat) (decimals : Nat)
  | MintToChecked (amount : Nat) (decimals : Nat)
  | BurnChecked (amount : Nat) (decimals : Nat)
  | SyncNative
deriving DecidableEq, Repr

/-- `mpl_token_metadata::state::Creator` (share is a `u8`). -/
structure MplCreator where
  address : Key
  verified : Bool
  share : Nat
deriving DecidableEq, Repr

/-- `mpl_token_metadata::state::Collection`. -/
structure MplCollection where
  key : Key
  verified : Bool
deriving DecidableEq, Repr

/-- Metadata `Data` (v1): uri bytes and optional creators. -/
structure MetaDataV1 where
  uri : List Nat
  creators : Option (List MplCreator)
deriving DecidableEq, Repr

/-- Metadata `DataV2`: adds the optional collection. -/
structure MetaDataV2 where
  uri : List Nat
  creators : Option (List MplCreator)
  collection : Option MplCollection
deriving DecidableEq, Repr

/-- Decoded `mpl_token_metadata::instruction::MetadataInstruction`, with
exactly the argument fields the sources read. -/
inductive MetadataInstruction where
  | CreateMetadataAccount (data : MetaDataV1)
  | CreateMetadataAccountV2 (data : MetaDataV2)
  | UpdateMetadataAccount (data : Option MetaDataV1)
  | UpdateMetadataAccountV2 (data : Option MetaDataV2)
  | DeprecatedCreateMasterEdition
  | CreateMasterEdition
  | CreateMasterEditionV3
  | DeprecatedMintNewEditionFromMasterEditionViaPrintingToken
  | MintNewEditionFromMasterEditionViaToken (edition : Nat)
  | MintNewEditionFromMasterEditionViaVaultProxy (edition : Nat)
  | SignMetadata
  | RemoveCreatorVerification
  | VerifyCollection
  | SetAndVerifyCollection
  | UnverifyCollection
  | UpdatePrimarySaleHappenedViaToken
  | DeprecatedSetReservationList
  | DeprecatedCreateReservationList
  | DeprecatedMintPrintingTokensViaToken
  | DeprecatedMintPrintingTokens
  | ConvertMasterEditionV1ToV2
  | PuffMetadata
  | Utilize
  | ApproveUseAuthority
  | RevokeUseAuthority
  | ApproveCollectionAuthority
  | RevokeCollectionAuthority
  | FreezeDelegatedAccount
  | ThawDelegatedAccount
deriving DecidableEq, Repr

/-- Decoded view of a compiled instruction's `data` bytes: which program's
decoder accepts them and with which result; `.raw` stands for bytes that
neither decoder accepts. -/
inductive InstructionData where
  | token (t : TokenInstruction)
  | metadata (m : MetadataInstruction)
  | raw
deriving DecidableEq, Repr

/-- `solana_sdk::instruction::CompiledInstruction`; `accounts` are indices
into the per-transaction `account_keys`. -/
structure CompiledInstruction where
  program_id_index : Nat
  accounts : List Nat
  data : InstructionData
deriving DecidableEq, Repr

namespace Partition

/-- `bonbon::partition::ErrorCode`. -/
inductive ErrorCode where
  | MissingTransactionStatusMeta
  | BadAccountKeyIndex
  | BadTokenMetaAccountIndex
  | BadPubkeyString
  | FailedInstructionDeserialization
  | FailedTransientTokenAccountMatching
deriving DecidableEq, Repr

/-- `bonbon::partition::TransactionTokenMeta`; amounts are the decimal
strings of the balance entries, kept as byte lists. -/
structure TransactionTokenMeta where
  account_index : Nat
  decimals : Nat
  pre_amount : Option (List Nat)
  post_amount : Option (List Nat)
  mint_key : Key
deriving DecidableEq, Repr

/-- `bonbon::partition::InstructionContext` (the `&mut` transient overlay is
threaded as explicit state: functions take it inside the context and return
the new overlay). -/
structure InstructionContext where
  instruction : CompiledInstruction
  account_keys : List Key
  token_metas : List TransactionTokenMeta
  transient_metas : List TransactionTokenMeta
deriving DecidableEq, Repr

/-- `account_keys.get(instruction.accounts[index].into()).ok_or(BadAccountKeyIndex)`
(the Rust `instruction.accounts[index]` indexing is modelled with
`List.getD _ 0`). -/
def getAccountKey (instruction : CompiledInstruction) (account_keys : List Key)
    (index : Nat) : Except ErrorCode Key :=
  match account_keys.get? (instruction.accounts.getD index 0) with
  | some k => .ok k
  | none => .error .BadAccountKeyIndex

/-- `get_token_meta_for` from `partition_token_instruction`: look the
instruction's account up in the base index first, then the transient
overlay. -/
def getTokenMetaFor (ctx : InstructionContext) (index : Nat) :
    Option TransactionTokenMeta :=
  let index := ctx.instruction.accounts.getD index 0
  match ctx.token_metas.find? (fun m => m.account_index == index) with
  | some v => some v
  | none => ctx.transient_metas.find? (fun m => m.account_index == index)

/-- `amount_ok` inside `heuristic_token_meta_ok`: absent, or a one-byte
decimal string equal to `"0"` (0x30) or `"1"` (0x31). -/
def amountOk : Option (List Nat) → Bool
  | some amount => amount.length == 1
      && (amount.getD 0 0 == 0x30 || amount.getD 0 0 == 0x31)
  | none => true

/-- `heuristic_token_meta_ok`: the nft-shape heuristic. -/
def heuristicTokenMetaOk (meta : TransactionTokenMeta) : Bool :=
  meta.decimals == 0 && amountOk meta.pre_amount && amountOk meta.post_amount

/-- `token_account_mint_key`: meta lookup (error when absent) gated by the
nft-shape heuristic. -/
def tokenAccountMintKey (ctx : InstructionContext) (index : Nat) :
    Except ErrorCode (Option Key) :=
  match getTokenMetaFor ctx index with
  | none => .error .BadTokenMetaAccountIndex
  | some token_meta =>
      .ok (if heuristicTokenMetaOk token_meta then some token_meta.mint_key else none)

/-- `add_transient_token_meta`: push an overlay entry for the account at
`accounts[0]`, with synthetic `decimals = 1`, no amounts, and the mint taken
from `account_keys[accounts[1]]`. -/
def addTransientTokenMeta (ctx : InstructionContext) :
    Except ErrorCode (List TransactionTokenMeta) :=
  match getAccountKey ctx.instruction ctx.account_keys 1 with
  | .error e => .error e
  | .ok mint => .ok (ctx.transient_metas ++
      [{ account_index := ctx.instruction.accounts.getD 0 0,
         decimals := 1,
         pre_amount := none,
         post_amount := none,
         mint_key := mint }])

/-- `Vec::swap_remove(i)`: remove index `i`, moving the last element into
its place. -/
def swapRemove (l : List TransactionTokenMeta) (i : Nat) :
    List TransactionTokenMeta :=
  match l.getLast? with
  | none => l
  | some last =>
      let l' := l.dropLast
      if i < l'.length then l'.set i last else l'

/-- The `CloseAccount` overlay removal: find the first transient entry with
the matching account index and `swap_remove` it. -/
def closeRemove (transient_metas : List TransactionTokenMeta) (index : Nat) :
    List TransactionTokenMeta :=
  match transient_metas.findIdx? (fun m => m.account_index == index) with
  | some i => swapRemove transient_metas i
  | none => transient_metas

/-- `bonbon::partition::partition_token_instruction`.  Returns the optional
partition key together with the transient overlay after the call. -/
def partition_token_instruction (ctx : InstructionContext) :
    Except ErrorCode (Option Key × List TransactionTokenMeta) :=
  match ctx.instruction.data with
  | .token t =>
    match t with
    | .InitializeMint decimals =>
        if decimals != 0 then .ok (none, ctx.transient_metas)
        else
          match getAccountKey ctx.instruction ctx.account_keys 0 with
          | .error e => .error e
          | .ok k => .ok (some k, ctx.transient_metas)
    | .InitializeAccount =>
        match getTokenMetaFor ctx 0 with
        | some token_meta =>
            .ok ((if heuristicTokenMetaOk token_meta then some token_meta.mint_key
                  else none), ctx.transient_metas)
        | none =>
            match addTransientTokenMeta ctx with
            | .error e => .error e
            | .ok ts => .ok (none, ts)
    | .InitializeAccount2 =>
        match getTokenMetaFor ctx 0 with
        | some token_meta =>
            .ok ((if heuristicTokenMetaOk token_meta then some token_meta.mint_key
                  else none), ctx.transient_metas)
        | none =>
            match addTransientTokenMeta ctx with
            | .error e => .error e
            | .ok ts => .ok (none, ts)
    | .InitializeMultisig => .ok (none, ctx.transient_metas)
    | .Transfer amount =>
        if amount > 1 then .ok (none, ctx.transient_metas)
        else
          match tokenAccountMintKey ctx 0 with
          | .error e => .error e
          | .ok k => .ok (k, ctx.transient_metas)
    | .Approve amount =>
        if amount > 1 then .ok (none, ctx.transient_metas)
        else
          match tokenAccountMintKey ctx 0 with
          | .error e => .error e
          | .ok k => .ok (k, ctx.transient_metas)
    | .Revoke =>
        match tokenAccountMintKey ctx 0 with
        | .error e => .error e
        | .ok k => .ok (k, ctx.transient_metas)
    | .SetAuthority authority_type =>
        match authority_type with
        | .MintTokens => .ok (none, ctx.transient_metas)
        | _ =>
            match tokenAccountMintKey ctx 0 with
            | .error e => .error e
            | .ok k => .ok (k, ctx.transient_metas)
    | .MintTo amount =>
        if amount > 1 then .ok (none, ctx.transient_metas)
        else
          match tokenAccountMintKey ctx 1 with
          | .error e => .error e
          | .ok k => .ok (k, ctx.transient_metas)
    | .Burn amount =>
        if amount > 1 then .ok (none, ctx.transient_metas)
        else
          match tokenAccountMintKey ctx 0 with
          | .error e => .error e
          | .ok k => .ok (k, ctx.transient_metas)
    | .CloseAccount =>
        .ok (none, closeRemove ctx.transient_metas (ctx.instruction.accounts.getD 0 0))
    | .FreezeAccount =>
        match tokenAccountMintKey ctx 0 with
        | .error e => .error e
        | .ok k => .ok (k, ctx.transient_metas)
    | .ThawAccount =>
        match tokenAccountMintKey ctx 0 with
        | .error e => .error e
        | .ok k => .ok (k, ctx.transient_metas)
    | .TransferChecked amount decimals =>
        if decimals != 0 || amount > 1 then .ok (none, ctx.transient_metas)
        else
          match tokenAccountMintKey ctx 0 with
          | .error e => .error e
          | .ok k => .ok (k, ctx.transient_metas)
    | .ApproveChecked amount decimals =>
        if decimals != 0 || amount > 1 then .ok (none, ctx.transient_metas)
        else
          match tokenAccountMintKey ctx 0 with
          | .error e => .error e
          | .ok k => .ok (k, ctx.transient_metas)
    | .MintToChecked amount decimals =>
        if decimals != 0 || amount > 1 then .ok (none, ctx.transient_metas)
        else
          match tokenAccountMintKey ctx 1 with
          | .error e => .error e
          | .ok k => .ok (k, ctx.transient_metas)
    | .BurnChecked amount decimals =>
        if decimals != 0 || amount > 1 then .ok (none, ctx.transient_metas)
        else
          match tokenAccountMintKey ctx 0 with
          | .error e => .error e
          | .ok k => .ok (k, ctx.transient_metas)
    | .SyncNative => .ok (none, ctx.transient_metas)
  | _ => .error .FailedInstructionDeserialization

/-- `bonbon::partition::partition_metadata_instruction`; the transient
overlay is untouched. -/
def partition_metadata_instruction (ctx : InstructionContext) :
    Except ErrorCode (Option Key × List TransactionTokenMeta) :=
  let gak := getAccountKey ctx.instruction ctx.account_keys
  let keyAt : Nat → Except ErrorCode (Option Key × List TransactionTokenMeta) :=
    fun i =>
      match gak i with
      | .error e => .error e
      | .ok k => .ok (some k, ctx.transient_metas)
  match ctx.instruction.data with
  | .metadata m =>
    match m with
    | .CreateMetadataAccount _ => keyAt 0
    | .CreateMetadataAccountV2 _ => keyAt 0
    | .UpdateMetadataAccount _ => keyAt 0
    | .UpdateMetadataAccountV2 _ => keyAt 0
    | .DeprecatedCreateMasterEdition => keyAt 7
    | .CreateMasterEdition => keyAt 5
    | .CreateMasterEditionV3 => keyAt 5
    | .DeprecatedMintNewEditionFromMasterEditionViaPrintingToken =>
        match gak 11 with
        | .error e => .error e
        | .ok pivot_key =>
            if pivot_key = spl_token_id then
              match gak 10 with
              | .error e => .error e
              | .ok _master_key => keyAt 0
            else keyAt 0
    | .MintNewEditionFromMasterEditionViaToken _ =>
        match gak 10 with
        | .error e => .error e
        | .ok _master_key => keyAt 0
    | .MintNewEditionFromMasterEditionViaVaultProxy _ =>
        match gak 12 with
        | .error e => .error e
        | .ok _master_key => keyAt 0
    | .SignMetadata => keyAt 0
    | .RemoveCreatorVerification => keyAt 0
    | .VerifyCollection => keyAt 0
    | .SetAndVerifyCollection => keyAt 0
    | .UnverifyCollection => keyAt 0
    | .UpdatePrimarySaleHappenedViaToken => keyAt 0
    | .DeprecatedSetReservationList => .ok (none, ctx.transient_metas)
    | .DeprecatedCreateReservationList => keyAt 5
    | .DeprecatedMintPrintingTokensViaToken => keyAt 5
    | .DeprecatedMintPrintingTokens => keyAt 3
    | .ConvertMasterEditionV1ToV2 => .ok (none, ctx.transient_metas)
    | .PuffMetadata => keyAt 0
    | .Utilize => keyAt 0
    | .ApproveUseAuthority => keyAt 5
    | .RevokeUseAuthority => keyAt 5
    | .ApproveCollectionAuthority => keyAt 4
    | .RevokeCollectionAuthority => keyAt 3
    | .FreezeDelegatedAccount => .ok (none, ctx.transient_metas)
    | .ThawDelegatedAccount => .ok (none, ctx.transient_metas)
  | _ => .error .FailedInstructionDeserialization

/-- A partitioner function: optional partition key plus the transient
overlay after the call (the Rust `&mut`). -/
def PartitionerFn :=
  InstructionContext → Except ErrorCode (Option Key × List TransactionTokenMeta)

/-- `bonbon::partition::InstructionPartitioner`. -/
structure InstructionPartitioner where
  program_id : Key
  partitioner : PartitionerFn

/-- `bonbon::partition::PartitionedInstruction` (`outer_index` and
`inner_index` are list positions cast to `i64` in the source; kept as
`Nat`). -/
structure PartitionedInstruction where
  instruction : CompiledInstruction
  partition_key : Key
  program_key : Key
  outer_index : Nat
  inner_index : Option Nat
deriving DecidableEq, Repr

/-- `solana_transaction_status::TransactionTokenBalance`, flattened: the
`ui_token_amount` struct contributes `decimals` and the decimal-string
`amount`; the base58 `mint` string is embedded already decoded. -/
structure TransactionTokenBalance where
  account_index : Nat
  mint : Key
  decimals : Nat
  amount : List Nat
deriving DecidableEq, Repr

/-- One inner-instruction group of the status meta. -/
structure InnerInstructions where
  index : Nat
  instructions : List CompiledInstruction
deriving DecidableEq, Repr

/-- The transaction status meta (`status.is_err()` is the `failed` flag). -/
structure TransactionStatusMeta where
  failed : Bool
  pre_token_balances : Option (List TransactionTokenBalance)
  post_token_balances : Option (List TransactionTokenBalance)
  inner_instructions : Option (List InnerInstructions)
deriving DecidableEq, Repr

/-- `TransactionWithStatusMeta` as consumed: account keys, the message's
outer instructions, and the optional status meta
(`get_status_meta() = none` for the `MissingMetadata` variant). -/
structure Transaction where
  account_keys : List Key
  instructions : List CompiledInstruction
  status : Option TransactionStatusMeta
deriving DecidableEq, Repr

/-- `meta_from_balance` (amounts unfilled). -/
def metaFromBalance (b : TransactionTokenBalance) : TransactionTokenMeta :=
  { account_index := b.account_index,
    decimals := b.decimals,
    pre_amount := none,
    post_amount := none,
    mint_key := b.mint }

/-- One pre-balance step of the `HashMap::entry(..).or_insert(..)` build:
insert the fresh meta if the account index is new, then fill `pre_amount`. -/
def insertPreBalance (ms : List TransactionTokenMeta)
    (b : TransactionTokenBalance) : List TransactionTokenMeta :=
  match ms with
  | [] => [{ metaFromBalance b with pre_amount := some b.amount }]
  | m :: rest =>
      if m.account_index = b.account_index then
        { m with pre_amount := some b.amount } :: rest
      else m :: insertPreBalance rest b

/-- One post-balance step, filling `post_amount`. -/
def insertPostBalance (ms : List TransactionTokenMeta)
    (b : TransactionTokenBalance) : List TransactionTokenMeta :=
  match ms with
  | [] => [{ metaFromBalance b with post_amount := some b.amount }]
  | m :: rest =>
      if m.account_index = b.account_index then
        { m with post_amount := some b.amount } :: rest
      else m :: insertPostBalance rest b

/-- The per-transaction base token-meta index: pre balances inserted first,
then post balances merged in (the `HashMap` keyed by `account_index`,
modelled as an association list with unique keys). -/
def buildTokenMetas (pre post : List TransactionTokenBalance) :
    List TransactionTokenMeta :=
  post.foldl insertPostBalance (pre.foldl insertPreBalance [])

/-- `try_partition_instruction` from `partition_transaction`: dispatch on
the program key; unknown programs emit nothing.  Returns the (zero- or
one-element) list of emitted records and the overlay after the call. -/
def tryPartitionInstruction (partitioners : List InstructionPartitioner)
    (account_keys : List Key) (token_metas : List TransactionTokenMeta)
    (instruction : CompiledInstruction) (outer_index : Nat)
    (inner_index : Option Nat) (transient_metas : List TransactionTokenMeta) :
    Except ErrorCode (List PartitionedInstruction × List TransactionTokenMeta) :=
  match account_keys.get? instruction.program_id_index with
  | none => .error .BadAccountKeyIndex
  | some program_id =>
      match partitioners.find? (fun p => p.program_id == program_id) with
      | none => .ok ([], transient_metas)
      | some p =>
          match p.partitioner
              { instruction := instruction, account_keys := account_keys,
                token_metas := token_metas, transient_metas := transient_metas } with
          | .error e => .error e
          | .ok (none, ts) => .ok ([], ts)
          | .ok (some partition_key, ts) =>
              .ok ([{ instruction := instruction,
                      partition_key := partition_key,
                      program_key := program_id,
                      outer_index := outer_index,
                      inner_index := inner_index }], ts)

/-- The inner loop of `partition_transaction`: the instructions of one
inner-instruction group, emitted with `inner_index = some _`. -/
def processInnerGroup (partitioners : List InstructionPartitioner)
    (account_keys : List Key) (token_metas : List TransactionTokenMeta)
    (outer_index : Nat) :
    List CompiledInstruction → Nat → List TransactionTokenMeta →
    Except ErrorCode (List PartitionedInstruction × List TransactionTokenMeta)
  | [], _, ts => .ok ([], ts)
  | i :: rest, inner_index, ts =>
      match tryPartitionInstruction partitioners account_keys token_metas i
          outer_index (some inner_index) ts with
      | .error e => .error e
      | .ok (l1, ts1) =>
          match processInnerGroup partitioners account_keys token_metas
              outer_index rest (inner_index + 1) ts1 with
          | .error e => .error e
          | .ok (l2, ts2) => .ok (l1 ++ l2, ts2)

/-- The peekable-cursor step of `partition_transaction`'s outer loop: if
the next inner-instruction group's `index` equals the current outer index,
consume it (its instructions are processed now); otherwise leave the cursor
in place and process no inner instructions. -/
def consumeInner (inners : List InnerInstructions) (outer_index : Nat) :
    List CompiledInstruction × List InnerInstructions :=
  match inners with
  | g :: gs => if g.index = outer_index then (g.instructions, gs)
               else ([], g :: gs)
  | [] => ([], [])

/-- The outer loop of `partition_transaction`: for each outer index, consume
the matching inner group first (peekable-cursor semantics), then the outer
instruction itself. -/
def processOuters (partitioners : List InstructionPartitioner)
    (account_keys : List Key) (token_metas : List TransactionTokenMeta) :
    List CompiledInstruction → List InnerInstructions → Nat →
    List TransactionTokenMeta →
    Except ErrorCode (List PartitionedInstruction × List TransactionTokenMeta)
  | [], _, _, ts => .ok ([], ts)
  | instruction :: rest, inners, outer_index, ts =>
      let consumed := consumeInner inners outer_index
      match processInnerGroup partitioners account_keys token_metas outer_index
          consumed.1 0 ts with
      | .error e => .error e
      | .ok (l1, ts1) =>
          match tryPartitionInstruction partitioners account_keys token_metas
              instruction outer_index none ts1 with
          | .error e => .error e
          | .ok (l2, ts2) =>
              match processOuters partitioners account_keys token_metas rest
                  consumed.2 (outer_index + 1) ts2 with
              | .error e => .error e
              | .ok (l3, ts3) => .ok (l1 ++ l2 ++ l3, ts3)

/-- The instruction-iteration phase of `partition_transaction` for a
transaction with status meta `m`: base index built from the pre/post
balances, overlay initially empty. -/
def partitionTransactionCore (transaction : Transaction)
    (partitioners : List InstructionPartitioner) (m : TransactionStatusMeta) :
    Except ErrorCode (List PartitionedInstruction × List TransactionTokenMeta) :=
  processOuters partitioners transaction.account_keys
    (buildTokenMetas (m.pre_token_balances.getD []) (m.post_token_balances.getD []))
    transaction.instructions (m.inner_instructions.getD []) 0 []

/-- `bonbon::partition::partition_transaction`. -/
def partition_transaction (transaction : Transaction)
    (partitioners : List InstructionPartitioner) :
    Except ErrorCode (List PartitionedInstruction) :=
  match transaction.status with
  | none => .error .MissingTransactionStatusMeta
  | some m =>
      match partitionTransactionCore transaction partitioners m with
      | .error e => .error e
      | .ok (partitioned, transient_metas) =>
          if transient_metas.length ≠ 0 then
            .error .FailedTransientTokenAccountMatching
          else .ok partitioned

/-- The partitioner registry instantiated by `chocolatier::partition`. -/
def chocolatierPartitioners : List InstructionPartitioner :=
  [{ program_id := spl_token_id, partitioner := partition_token_instruction },
   { program_id := mpl_token_metadata_id, partitioner := partition_metadata_instruction }]

/-- The per-row guard of `chocolatier::partition` (main.rs): a transaction
whose status meta marks it failed is skipped (`continue`) before
`partition_transaction` is ever called; otherwise the transaction is
partitioned.  `none` models the `continue`. -/
def chocolatierPartitionStep (transaction : Transaction) :
    Option (Except ErrorCode (List PartitionedInstruction)) :=
  if transaction.status.map (fun m => m.failed) = some true then none
  else some (partition_transaction transaction chocolatierPartitioners)

end Partition

namespace Assemble

/-- `bonbon::assemble::ErrorCode`. -/
inductive ErrorCode where
  | BadAccountKeyIndex
  | FailedInstructionDeserialization
  | InvalidMetadataCreate
  | InvalidMetadataUpdate
  | InvalidMasterEditionCreate
  | InvalidMetadataVerifyOperation
deriving DecidableEq, Repr

/-- `bonbon::assemble::EditionStatus`. -/
inductive EditionStatus where
  | None
  | Master
  | Limited
deriving DecidableEq, Repr

/-- `bonbon::assemble::LimitedEdition` (`edition_num : Option<i64>`). -/
structure LimitedEdition where
  master_key : Key
  edition_num : Option Int
deriving DecidableEq, Repr

/-- `bonbon::assemble::Creator` (`share : i16`). -/
structure Creator where
  address : Key
  verified : Bool
  share : Int
deriving DecidableEq, Repr

/-- `bonbon::assemble::Collection`. -/
structure Collection where
  address : Key
  verified : Bool
deriving DecidableEq, Repr

/-- `From<MplCollection> for Collection`. -/
def collectionFromMpl (c : MplCollection) : Collection :=
  { address := c.key, verified := c.verified }

/-- `from_creators`: absent creator list becomes empty; `share` widens from
`u8` to `i16`. -/
def fromCreators (creators : Option (List MplCreator)) : List Creator :=
  (creators.getD []).map (fun c =>
    { address := c.address, verified := c.verified, share := (c.share : Int) })

/-- `bonbon::assemble::Glazing`. -/
structure Glazing where
  uri : List Nat
  creators : List Creator
  collection : Option Collection
deriving DecidableEq, Repr

/-- `Glazing::default()`. -/
def glazingDefault : Glazing := { uri := [], creators := [], collection := none }

/-- `bonbon::assemble::Bonbon`. -/
structure Bonbon where
  mint_key : Key
  metadata_key : Key
  current_owner : Option Key
  current_account : Option Key
  edition_status : EditionStatus
  limited_edition : Option LimitedEdition
  glazing : List Glazing
deriving DecidableEq, Repr

/-- `Bonbon::default()`. -/
def bonbonDefault : Bonbon :=
  { mint_key := keyDefault, metadata_key := keyDefault,
    current_owner := none, current_account := none,
    edition_status := .None, limited_edition := none, glazing := [] }

/-- `bonbon::assemble::TransactionTokenOwnerMeta`. -/
structure TransactionTokenOwnerMeta where
  account_index : Nat
  owner_key : Key
deriving DecidableEq, Repr

/-- The creator-flip loop of `apply_creator_verification`: set `verified` on
the first creator whose address matches, leaving the rest unchanged. -/
def flipFirstCreator : List Creator → Key → Bool → List Creator
  | [], _, _ => []
  | c :: cs, creator_key, verified =>
      if c.address = creator_key then { c with verified := verified } :: cs
      else c :: flipFirstCreator cs creator_key verified

/-- `Bonbon::apply_creator_verification`. -/
def apply_creator_verification (b : Bonbon) (creator_key : Key)
    (verified : Bool) : Bonbon :=
  match b.glazing.getLast? with
  | some last =>
      { b with glazing := b.glazing ++
          [{ last with creators := flipFirstCreator last.creators creator_key verified }] }
  | none =>
      { b with glazing := b.glazing ++
          [{ glazingDefault with
              creators := [{ address := creator_key, verified := verified, share := 0 }] }] }

/-- `Bonbon::apply_collection_verification`. -/
def apply_collection_verification (b : Bonbon) (collection_key : Key)
    (verified : Bool) : Bonbon :=
  let prev := b.glazing.getLastD glazingDefault
  { b with glazing := b.glazing ++
      [{ prev with collection := some { address := collection_key, verified := verified } }] }

/-- `get_account_key` of the assembler updates (same shape as the
partitioner's). -/
def getAccountKey (instruction : CompiledInstruction) (account_keys : List Key)
    (index : Nat) : Except ErrorCode Key :=
  match account_keys.get? (instruction.accounts.getD index 0) with
  | some k => .ok k
  | none => .error .BadAccountKeyIndex

/-- `bonbon::assemble::update_metadata_instruction`. -/
def update_metadata_instruction (b : Bonbon) (instruction : CompiledInstruction)
    (account_keys : List Key) (_owners : List TransactionTokenOwnerMeta) :
    Except ErrorCode Bonbon :=
  let gak := getAccountKey instruction account_keys
  match instruction.data with
  | .metadata mi =>
    match mi with
    | .CreateMetadataAccount args =>
        match gak 0 with
        | .error e => .error e
        | .ok metadata_key =>
            if find_metadata_account b.mint_key ≠ metadata_key then
              .error .InvalidMetadataCreate
            else
              .ok { b with
                    metadata_key := metadata_key,
                    glazing := b.glazing ++
                      [{ uri := args.uri, creators := fromCreators args.creators,
                         collection := none }] }
    | .CreateMetadataAccountV2 args =>
        match gak 0 with
        | .error e => .error e
        | .ok metadata_key =>
            if find_metadata_account b.mint_key ≠ metadata_key then
              .error .InvalidMetadataCreate
            else
              .ok { b with
                    metadata_key := metadata_key,
                    glazing := b.glazing ++
                      [{ uri := args.uri, creators := fromCreators args.creators,
                         collection := args.collection.map collectionFromMpl }] }
    | .UpdateMetadataAccount args =>
        match gak 0 with
        | .error e => .error e
        | .ok metadata_key =>
            if b.metadata_key ≠ metadata_key then .error .InvalidMetadataUpdate
            else
              match args with
              | some data =>
                  .ok { b with glazing := b.glazing ++
                        [{ uri := data.uri, creators := fromCreators data.creators,
                           collection := none }] }
              | none => .ok b
    | .UpdateMetadataAccountV2 args =>
        match gak 0 with
        | .error e => .error e
        | .ok metadata_key =>
            if b.metadata_key ≠ metadata_key then .error .InvalidMetadataUpdate
            else
              match args with
              | some data =>
                  .ok { b with glazing := b.glazing ++
                        [{ uri := data.uri, creators := fromCreators data.creators,
                           collection := data.collection.map collectionFromMpl }] }
              | none => .ok b
    | .DeprecatedCreateMasterEdition =>
        match gak 7 with
        | .error e => .error e
        | .ok metadata_key =>
            if b.metadata_key ≠ metadata_key ∨ b.edition_status ≠ .None then
              .error .InvalidMasterEditionCreate
            else .ok { b with edition_status := .Master }
    | .CreateMasterEdition =>
        match gak 5 with
        | .error e => .error e
        | .ok metadata_key =>
            if b.metadata_key ≠ metadata_key ∨ b.edition_status ≠ .None then
              .error .InvalidMasterEditionCreate
            else .ok { b with edition_status := .Master }
    | .CreateMasterEditionV3 =>
        match gak 5 with
        | .error e => .error e
        | .ok metadata_key =>
            if b.metadata_key ≠ metadata_key ∨ b.edition_status ≠ .None then
              .error .InvalidMasterEditionCreate
            else .ok { b with edition_status := .Master }
    | .DeprecatedMintNewEditionFromMasterEditionViaPrintingToken =>
        match gak 0 with
        | .error e => .error e
        | .ok metadata_key =>
            if find_metadata_account b.mint_key ≠ metadata_key then
              .error .InvalidMetadataCreate
            else
              .ok { b with
                    metadata_key := metadata_key,
                    edition_status := .Limited,
                    limited_edition := none }
    | .MintNewEditionFromMasterEditionViaToken args =>
        match gak 0 with
        | .error e => .error e
        | .ok metadata_key =>
            if find_metadata_account b.mint_key ≠ metadata_key then
              .error .InvalidMetadataCreate
            else
              match gak 10 with
              | .error e => .error e
              | .ok master_key =>
                  .ok { b with
                        metadata_key := metadata_key,
                        edition_status := .Limited,
                        limited_edition := some
                          { master_key := master_key,
                            edition_num := some (args : Int) } }
    | .MintNewEditionFromMasterEditionViaVaultProxy args =>
        match gak 0 with
        | .error e => .error e
        | .ok metadata_key =>
            if find_metadata_account b.mint_key ≠ metadata_key then
              .error .InvalidMetadataCreate
            else
              match gak 12 with
              | .error e => .error e
              | .ok master_key =>
                  .ok { b with
                        metadata_key := metadata_key,
                        edition_status := .Limited,
                        limited_edition := some
                          { master_key := master_key,
                            edition_num := some (args : Int) } }
    | .SignMetadata =>
        match gak 0 with
        | .error e => .error e
        | .ok metadata_key =>
            if b.metadata_key ≠ metadata_key then
              .error .InvalidMetadataVerifyOperation
            else
              match gak 1 with
              | .error e => .error e
              | .ok creator_key => .ok (apply_creator_verification b creator_key true)
    | .RemoveCreatorVerification =>
        match gak 0 with
        | .error e => .error e
        | .ok metadata_key =>
            if b.metadata_key ≠ metadata_key then
              .error .InvalidMetadataVerifyOperation
            else
              match gak 1 with
              | .error e => .error e
              | .ok creator_key => .ok (apply_creator_verification b creator_key false)
    | .VerifyCollection =>
        match gak 0 with
        | .error e => .error e
        | .ok metadata_key =>
            if b.metadata_key ≠ metadata_key then
              .error .InvalidMetadataVerifyOperation
            else
              match gak 3 with
              | .error e => .error e
              | .ok collection_key =>
                  .ok (apply_collection_verification b collection_key true)
    | .SetAndVerifyCollection =>
        match gak 0 with
        | .error e => .error e
        | .ok metadata_key =>
            if b.metadata_key ≠ metadata_key then
              .error .InvalidMetadataVerifyOperation
            else
              match gak 4 with
              | .error e => .error e
              | .ok collection_key =>
                  .ok (apply_collection_verification b collection_key true)
    | .UnverifyCollection =>
        match gak 0 with
        | .error e => .error e
        | .ok metadata_key =>
            if b.metadata_key ≠ metadata_key then
              .error .InvalidMetadataVerifyOperation
            else
              match gak 3 with
              | .error e => .error e
              | .ok collection_key =>
                  .ok (apply_collection_verification b collection_key true)
    | .UpdatePrimarySaleHappenedViaToken => .ok b
    | .DeprecatedSetReservationList => .ok b
    | .DeprecatedCreateReservationList => .ok b
    | .DeprecatedMintPrintingTokensViaToken => .ok b
    | .DeprecatedMintPrintingTokens => .ok b
    | .ConvertMasterEditionV1ToV2 => .ok b
    | .PuffMetadata => .ok b
    | .Utilize => .ok b
    | .ApproveUseAuthority => .ok b
    | .RevokeUseAuthority => .ok b
    | .ApproveCollectionAuthority => .ok b
    | .RevokeCollectionAuthority => .ok b
    | .FreezeDelegatedAccount => .ok b
    | .ThawDelegatedAccount => .ok b
  | _ => .error .FailedInstructionDeserialization

/-- `get_token_meta_for` of `update_token_instruction`: first owner entry
matching the instruction's account index. -/
def getOwnerMetaFor (instruction : CompiledInstruction)
    (owners : List TransactionTokenOwnerMeta) (index : Nat) :
    Option TransactionTokenOwnerMeta :=
  owners.find? (fun m => m.account_index == instruction.accounts.getD index 0)

/-- `bonbon::assemble::update_token_instruction`. -/
def update_token_instruction (b : Bonbon) (instruction : CompiledInstruction)
    (account_keys : List Key) (owners : List TransactionTokenOwnerMeta) :
    Except ErrorCode Bonbon :=
  let gak := getAccountKey instruction account_keys
  match instruction.data with
  | .token ti =>
    match ti with
    | .InitializeMint _ =>
        match gak 0 with
        | .error e => .error e
        | .ok k => .ok { b with mint_key := k }
    | .InitializeAccount => .ok b
    | .InitializeAccount2 => .ok b
    | .Transfer _ =>
        match gak 1 with
        | .error e => .error e
        | .ok k =>
            .ok { b with
                  current_owner := (getOwnerMetaFor instruction owners 1).map
                    (fun m => m.owner_key),
                  current_account := some k }
    | .SetAuthority _ => .ok b
    | .MintTo _ =>
        match gak 1 with
        | .error e => .error e
        | .ok k =>
            .ok { b with
                  current_owner := (getOwnerMetaFor instruction owners 1).map
                    (fun m => m.owner_key),
                  current_account := some k }
    | .Burn _ => .ok { b with current_owner := none, current_account := none }
    | .TransferChecked _ _ =>
        match gak 2 with
        | .error e => .error e
        | .ok k =>
            .ok { b with
                  current_owner := (getOwnerMetaFor instruction owners 2).map
                    (fun m => m.owner_key),
                  current_account := some k }
    | .MintToChecked _ _ =>
        match gak 1 with
        | .error e => .error e
        | .ok k =>
            .ok { b with
                  current_owner := (getOwnerMetaFor instruction owners 1).map
                    (fun m => m.owner_key),
                  current_account := some k }
    | .BurnChecked _ _ => .ok { b with current_owner := none, current_account := none }
    | .InitializeMultisig => .ok b
    | .Approve _ => .ok b
    | .Revoke => .ok b
    | .CloseAccount => .ok b
    | .FreezeAccount => .ok b
    | .ThawAccount => .ok b
    | .ApproveChecked _ _ => .ok b
    | .SyncNative => .ok b
  | _ => .error .FailedInstructionDeserialization

/-- `Bonbon::update` with the updater registry instantiated as in
`chocolatier::reassemble`: dispatch on `account_keys[program_id_index]`;
unknown programs are a no-op. -/
def bonbon_update (b : Bonbon) (instruction : CompiledInstruction)
    (account_keys : List Key) (owners : List TransactionTokenOwnerMeta) :
    Except ErrorCode Bonbon :=
  match account_keys.get? instruction.program_id_index with
  | none => .error .BadAccountKeyIndex
  | some program_id =>
      if program_id = spl_token_id then
        update_token_instruction b instruction account_keys owners
      else if program_id = mpl_token_metadata_id then
        update_metadata_instruction b instruction account_keys owners
      else .ok b

/-- One assembler update's inputs: the instruction with its transaction's
account keys and owner metas. -/
structure UpdateStep where
  instruction : CompiledInstruction
  account_keys : List Key
  owners : List TransactionTokenOwnerMeta
deriving DecidableEq, Repr

/-- A sequence of assembler updates folded through `Bonbon::update`. -/
def applyUpdates (b : Bonbon) : List UpdateStep → Except ErrorCode Bonbon
  | [] => .ok b
  | s :: rest =>
      match bonbon_update b s.instruction s.account_keys s.owners with
      | .error e => .error e
      | .ok b' => applyUpdates b' rest

/-- A sequence of calls to `update_metadata_instruction` alone. -/
def applyMetadataUpdates (b : Bonbon) : List UpdateStep → Except ErrorCode Bonbon
  | [] => .ok b
  | s :: rest =>
      match update_metadata_instruction b s.instruction s.account_keys s.owners with
      | .error e => .error e
      | .ok b' => applyMetadataUpdates b' rest

/-- Rank of an edition status in the order `None < Master < Limited`; the
amended edition-lifecycle invariant is that this rank never decreases. -/
def editionRank : EditionStatus → Nat
  | .None => 0
  | .Master => 1
  | .Limited => 2

/-- The instruction payloads the spec calls "create-metadata or
update-metadata-with-data": the two create variants and the two update
variants that carry a `Some` data payload. -/
def carriesNewData : InstructionData → Bool
  | .metadata (.CreateMetadataAccount _) => true
  | .metadata (.CreateMetadataAccountV2 _) => true
  | .metadata (.UpdateMetadataAccount (some _)) => true
  | .metadata (.UpdateMetadataAccountV2 (some _)) => true
  | _ => false

/-- The three `CreateMasterEdition` instruction variants. -/
def isCreateMasterEditionVariant : InstructionData → Bool
  | .metadata .DeprecatedCreateMasterEdition => true
  | .metadata .CreateMasterEdition => true
  | .metadata .CreateMasterEditionV3 => true
  | _ => false

end Assemble

namespace Partition

/-- Which position of `instruction.accounts` the token partitioner consults
the token-meta index at in the branch able to return a partition key:
position 1 for the `MintTo` variants, none for the variants that never
consult a meta (`InitializeMint` keys off the instruction's own `decimals`
argument; `InitializeMultisig`, `CloseAccount` and `SyncNative` always
return `None`), and position 0 for every other variant. -/
def consultedMetaIndex : TokenInstruction → Option Nat
  | .InitializeMint _ => none
  | .InitializeMultisig => none
  | .CloseAccount => none
  | .SyncNative => none
  | .MintTo _ => some 1
  | .MintToChecked _ _ => some 1
  | _ => some 0

/-- No entry with `inner_index = some _` occurs after the entry with
`inner_index = none` of the same `outer_index`: inner CPI instructions are
emitted before the outer instruction of the same outer index. -/
def InnerBeforeOuter (l : List PartitionedInstruction) : Prop :=
  l.Pairwise (fun a b => ¬(a.outer_index = b.outer_index ∧
    a.inner_index = none ∧ b.inner_index ≠ none))

end Partition

/-! Concrete inputs used to instantiate the theorems below. -/

section ConcreteInputs
open Partition Assemble

/-- A successful creation of the metadata account for the default mint key:
`accounts[0]` points at `find_metadata_account 0`. -/
def stepCreateMeta : UpdateStep :=
  { instruction := { program_id_index := 1, accounts := [0],
                     data := .metadata (.CreateMetadataAccount
                       { uri := [1], creators := none }) },
    account_keys := [find_metadata_account 0, mpl_token_metadata_id],
    owners := [] }

/-- A successful `CreateMasterEdition` for the same bonbon (`accounts[5]`
points at its metadata key). -/
def stepCreateMaster : UpdateStep :=
  { instruction := { program_id_index := 1, accounts := [0, 0, 0, 0, 0, 0],
                     data := .metadata .CreateMasterEdition },
    account_keys := [find_metadata_account 0, mpl_token_metadata_id],
    owners := [] }

/-- A `MintNewEditionFromMasterEditionViaToken` whose `accounts[0]` again
points at the bonbon's metadata key. -/
def stepMintNewEdition : UpdateStep :=
  { instruction := { program_id_index := 1,
                     accounts := [0, 0, 0, 0, 0, 0, 0, 0, 0, 0, 0],
                     data := .metadata (.MintNewEditionFromMasterEditionViaToken 42) },
    account_keys := [find_metadata_account 0, mpl_token_metadata_id],
    owners := [] }

/-- The bonbon reached from `Bonbon::default()` after `stepCreateMeta` and
`stepCreateMaster`: a master edition. -/
def bonbonMasterC1 : Assemble.Bonbon :=
  { mint_key := 0, metadata_key := find_metadata_account 0,
    current_owner := none, current_account := none,
    edition_status := .Master, limited_edition := none,
    glazing := [{ uri := [1], creators := [], collection := none }] }

/-- The bonbon after additionally applying `stepMintNewEdition`: the edition
status has moved away from `Master`. -/
def bonbonLimitedC1 : Assemble.Bonbon :=
  { mint_key := 0, metadata_key := find_metadata_account 0,
    current_owner := none, current_account := none,
    edition_status := .Limited,
    limited_edition := some { master_key := find_metadata_account 0,
                              edition_num := some 42 },
    glazing := [{ uri := [1], creators := [], collection := none }] }

/-- A transaction whose status meta marks it failed, carrying one
`InitializeMint(decimals = 0)` token instruction. -/
def txFailedC3 : Partition.Transaction :=
  { account_keys := [8, spl_token_id],
    instructions := [{ program_id_index := 1, accounts := [0],
                       data := .token (.InitializeMint 0) }],
    status := some { failed := true, pre_token_balances := none,
                     post_token_balances := none, inner_instructions := none } }

/-- The record `partition_transaction` emits for `txFailedC3`. -/
def partitionedC3 : Partition.PartitionedInstruction :=
  { instruction := { program_id_index := 1, accounts := [0],
                     data := .token (.InitializeMint 0) },
    partition_key := 8, program_key := spl_token_id,
    outer_index := 0, inner_index := none }

/-- A bare `InitializeMint(decimals = 0)` instruction over `accounts[0]`. -/
def insInitMintW : CompiledInstruction :=
  { program_id_index := 1, accounts := [0], data := .token (.InitializeMint 0) }

/-- `Bonbon::default()` after a successful `InitializeMint` token update
with `account_keys = [8, _]`. -/
def bonbonMintedW : Assemble.Bonbon :=
  { bonbonDefault with mint_key := 8 }

/-- `Bonbon::default()` after the successful `stepCreateMeta` update. -/
def bonbonCreatedW : Assemble.Bonbon :=
  { mint_key := 0, metadata_key := find_metadata_account 0,
    current_owner := none, current_account := none,
    edition_status := .None, limited_edition := none,
    glazing := [{ uri := [1], creators := [], collection := none }] }

/-- An `UpdateMetadataAccount` carrying new data for the same metadata
account. -/
def stepUpdateMeta : UpdateStep :=
  { instruction := { program_id_index := 1, accounts := [0],
                     data := .metadata (.UpdateMetadataAccount
                       (some { uri := [2], creators := none })) },
    account_keys := [find_metadata_account 0, mpl_token_metadata_id],
    owners := [] }

/-- `bonbonCreatedW` after the successful `stepUpdateMeta` update. -/
def bonbonUpdatedW : Assemble.Bonbon :=
  { bonbonCreatedW with
    glazing := [{ uri := [1], creators := [], collection := none },
                { uri := [2], creators := [], collection := none }] }

/-- An `UnverifyCollection` instruction: `accounts[0]` names the metadata
account, `accounts[3]` the collection key. -/
def insUnverifyW : CompiledInstruction :=
  { program_id_index := 2, accounts := [0, 0, 0, 1],
    data := .metadata .UnverifyCollection }

/-- The account keys used with `insUnverifyW`. -/
def keysUnverifyW : List Key := [find_metadata_account 0, 9, mpl_token_metadata_id]

/-- A status meta of a successful transaction with no balances and no inner
instructions. -/
def emptyMetaOk : Partition.TransactionStatusMeta :=
  { failed := false, pre_token_balances := none,
    post_token_balances := none, inner_instructions := none }

/-- Scenario S1: one `InitializeMint(decimals = 0)` in a successful
transaction. -/
def txS1 : Partition.Transaction :=
  { account_keys := [8, spl_token_id],
    instructions := [insInitMintW],
    status := some emptyMetaOk }

/-- The single record `partition_transaction` emits for `txS1`. -/
def partitionedS1 : Partition.PartitionedInstruction :=
  { instruction := insInitMintW, partition_key := 8,
    program_key := spl_token_id, outer_index := 0, inner_index := none }

/-- A transient token meta for account index 0 with mint 8, as pushed by a
first `InitializeAccount`. -/
def metaTransientC8 : Partition.TransactionTokenMeta :=
  { account_index := 0, decimals := 1, pre_amount := none,
    post_amount := none, mint_key := 8 }

/-- An `InitializeAccount` whose token account is `accounts[0]` and whose
mint account is `accounts[1]`. -/
def insInitAccountC8 : CompiledInstruction :=
  { program_id_index := 2, accounts := [0, 1], data := .token .InitializeAccount }

/-- A `CloseAccount` over the same token account. -/
def insCloseAccountC8 : CompiledInstruction :=
  { program_id_index := 2, accounts := [0], data := .token .CloseAccount }

/-- A partitioner context in which the base token-meta index is empty but
the transient overlay already holds an entry for account index 0 (the state
after a first `InitializeAccount` of the same account earlier in the
transaction). -/
def ctxInitC8 : Partition.InstructionContext :=
  { instruction := insInitAccountC8,
    account_keys := [6, 8, spl_token_id],
    token_metas := [],
    transient_metas := [metaTransientC8] }

/-- The same init context with an empty transient overlay (the state at the
first `InitializeAccount` of the transaction). -/
def ctxInitFreshC8 : Partition.InstructionContext :=
  { instruction := insInitAccountC8,
    account_keys := [6, 8, spl_token_id],
    token_metas := [],
    transient_metas := [] }

/-- A `CloseAccount` context whose transient overlay holds the entry pushed
by the earlier `InitializeAccount`. -/
def ctxCloseC8 : Partition.InstructionContext :=
  { instruction := insCloseAccountC8,
    account_keys := [6, 8, spl_token_id],
    token_metas := [],
    transient_metas := [metaTransientC8] }

/-- Scenario S4: `InitializeAccount` then `CloseAccount` of a token account
absent from the pre/post balances, in one successful transaction. -/
def txInitCloseC8 : Partition.Transaction :=
  { account_keys := [6, 8, spl_token_id],
    instructions := [insInitAccountC8, insCloseAccountC8],
    status := some emptyMetaOk }

/-- An nft-shaped base token meta: decimals 0, amounts `"1"` and `"0"`. -/
def metaNftC6 : Partition.TransactionTokenMeta :=
  { account_index := 0, decimals := 0, pre_amount := some [0x31],
    post_amount := some [0x30], mint_key := 7 }

/-- A context holding a `Transfer(amount = 1)` over the nft-shaped token
account at index 0. -/
def ctxTransferC6 : Partition.InstructionContext :=
  { instruction := { program_id_index := 2, accounts := [0, 1],
                     data := .token (.Transfer 1) },
    account_keys := [5, 6, spl_token_id],
    token_metas := [metaNftC6],
    transient_metas := [] }

/-- A transaction with one outer instruction at index 0 and one inner
instruction group attached to it. -/
def txInnerC5 : Partition.Transaction :=
  { account_keys := [8, spl_token_id],
    instructions := [insInitMintW],
    status := some { failed := false, pre_token_balances := none,
                     post_token_balances := none,
                     inner_instructions :=
                       some [{ index := 0, instructions := [insInitMintW] }] } }

/-- The records emitted for `txInnerC5`: the inner instruction first, then
the outer one, both at outer index 0. -/
def partitionedC5 : List Partition.PartitionedInstruction :=
  [{ instruction := insInitMintW, partition_key := 8,
     program_key := spl_token_id, outer_index := 0, inner_index := some 0 },
   { instruction := insInitMintW, partition_key := 8,
     program_key := spl_token_id, outer_index := 0, inner_index := none }]

end ConcreteInputs

/-! ## Helper lemmas shared by the claim theorems -/

namespace Assemble

theorem update_token_shape (b : Bonbon) (i : CompiledInstruction)
    (keys : List Key) (owners : List TransactionTokenOwnerMeta) (b' : Bonbon)
    (h : update_token_instruction b i keys owners = .ok b') :
    b'.metadata_key = b.metadata_key ∧ b'.edition_status = b.edition_status ∧
    b'.limited_edition = b.limited_edition ∧ b'.glazing = b.glazing := by
  simp only [update_token_instruction] at h
  repeat' split at h
  all_goals first
    | exact Except.noConfusion h
    | (injection h with h; subst h; exact ⟨rfl, rfl, rfl, rfl⟩)

theorem apply_creator_glazing (b : Bonbon) (k : Key) (v : Bool) :
    ∃ g, apply_creator_verification b k v = { b with glazing := b.glazing ++ [g] } := by
  unfold apply_creator_verification
  cases b.glazing.getLast? <;> exact ⟨_, rfl⟩

theorem apply_collection_glazing (b : Bonbon) (k : Key) (v : Bool) :
    apply_collection_verification b k v = { b with glazing := b.glazing ++
      [{ b.glazing.getLastD glazingDefault with
         collection := some { address := k, verified := v } }] } := rfl

theorem editionRank_le_two (s : EditionStatus) : editionRank s ≤ 2 := by
  cases s <;> simp [editionRank]

theorem editionRank_two_iff (s : EditionStatus) :
    2 ≤ editionRank s ↔ s = .Limited := by
  cases s <;> simp [editionRank]

theorem update_metadata_shape (b : Bonbon) (i : CompiledInstruction)
    (keys : List Key) (owners : List TransactionTokenOwnerMeta) (b' : Bonbon)
    (h : update_metadata_instruction b i keys owners = .ok b') :
    b'.mint_key = b.mint_key ∧ b'.current_owner = b.current_owner ∧
    b'.current_account = b.current_account ∧
    (b'.metadata_key = b.metadata_key ∨
      b'.metadata_key = find_metadata_account b.mint_key) ∧
    editionRank b.edition_status ≤ editionRank b'.edition_status ∧
    b.glazing.length ≤ b'.glazing.length ∧
    (b.metadata_key = find_metadata_account b.mint_key →
      b'.metadata_key = b.metadata_key) := by
  simp only [update_metadata_instruction] at h
  repeat' split at h
  all_goals try exact Except.noConfusion h
  all_goals injection h with h
  all_goals first
    | (obtain ⟨g, hg⟩ := apply_creator_glazing b _ true
       rw [hg] at h; subst h
       refine ⟨rfl, rfl, rfl, Or.inl rfl, le_refl _, by simp, fun _ => rfl⟩)
    | (obtain ⟨g, hg⟩ := apply_creator_glazing b _ false
       rw [hg] at h; subst h
       refine ⟨rfl, rfl, rfl, Or.inl rfl, le_refl _, by simp, fun _ => rfl⟩)
    | (rw [apply_collection_glazing] at h; subst h
       refine ⟨rfl, rfl, rfl, Or.inl rfl, le_refl _, by simp, fun _ => rfl⟩)
    | (subst h
       refine ⟨rfl, rfl, rfl, ?_, ?_, ?_, ?_⟩ <;>
         first
           | exact editionRank_le_two _
           | simp_all [editionRank])

theorem update_metadata_newData (b : Bonbon) (i : CompiledInstruction)
    (keys : List Key) (owners : List TransactionTokenOwnerMeta) (b' : Bonbon)
    (h : update_metadata_instruction b i keys owners = .ok b')
    (hd : carriesNewData i.data = true) :
    ∃ g, b'.glazing = b.glazing ++ [g] := by
  simp only [update_metadata_instruction] at h
  repeat' split at h
  all_goals try exact Except.noConfusion h
  all_goals injection h with h
  all_goals subst h
  all_goals first
    | exact ⟨_, by simp⟩
    | simp_all [carriesNewData]

theorem update_metadata_createMaster (b : Bonbon) (i : CompiledInstruction)
    (keys : List Key) (owners : List TransactionTokenOwnerMeta) (b' : Bonbon)
    (h : update_metadata_instruction b i keys owners = .ok b')
    (hv : isCreateMasterEditionVariant i.data = true) :
    b.edition_status = .None ∧ b'.edition_status = .Master := by
  simp only [update_metadata_instruction] at h
  repeat' split at h
  all_goals try exact Except.noConfusion h
  all_goals injection h with h
  all_goals subst h
  all_goals simp_all [isCreateMasterEditionVariant]

theorem bonbon_update_mono (b : Bonbon) (i : CompiledInstruction)
    (keys : List Key) (owners : List TransactionTokenOwnerMeta) (b' : Bonbon)
    (h : bonbon_update b i keys owners = .ok b') :
    editionRank b.edition_status ≤ editionRank b'.edition_status ∧
    b.glazing.length ≤ b'.glazing.length := by
  unfold bonbon_update at h
  repeat' split at h
  · exact Except.noConfusion h
  · obtain ⟨-, h2, -, h4⟩ := update_token_shape _ _ _ _ _ h
    rw [h2, h4]
    exact ⟨le_refl _, le_refl _⟩
  · obtain ⟨-, -, -, -, h5, h6, -⟩ := update_metadata_shape _ _ _ _ _ h
    exact ⟨h5, h6⟩
  · injection h with h; subst h; exact ⟨le_refl _, le_refl _⟩

theorem applyUpdates_mono (L : List UpdateStep) (b b' : Bonbon)
    (h : applyUpdates b L = .ok b') :
    editionRank b.edition_status ≤ editionRank b'.edition_status ∧
    b.glazing.length ≤ b'.glazing.length := by
  induction L generalizing b with
  | nil =>
      simp only [applyUpdates] at h
      injection h with h; subst h; exact ⟨le_refl _, le_refl _⟩
  | cons s rest ih =>
      simp only [applyUpdates] at h
      split at h
      · exact Except.noConfusion h
      · next b1 hb1 =>
          obtain ⟨h1, h2⟩ := bonbon_update_mono _ _ _ _ _ hb1
          obtain ⟨h3, h4⟩ := ih _ h
          exact ⟨le_trans h1 h3, le_trans h2 h4⟩

theorem applyMetadataUpdates_stable (L : List UpdateStep) (b b' : Bonbon)
    (hfix : b.metadata_key = find_metadata_account b.mint_key)
    (h : applyMetadataUpdates b L = .ok b') :
    b'.metadata_key = b.metadata_key ∧ b'.mint_key = b.mint_key := by
  induction L generalizing b with
  | nil =>
      simp only [applyMetadataUpdates] at h
      injection h with h; subst h; exact ⟨rfl, rfl⟩
  | cons s rest ih =>
      simp only [applyMetadataUpdates] at h
      split at h
      · exact Except.noConfusion h
      · next b1 hb1 =>
          obtain ⟨hmint, -, -, -, -, -, hstable⟩ :=
            update_metadata_shape _ _ _ _ _ hb1
          have hkey : b1.metadata_key = b.metadata_key := hstable hfix
          have hfix1 : b1.metadata_key = find_metadata_account b1.mint_key := by
            rw [hkey, hmint, hfix]
          obtain ⟨e1, e2⟩ := ih _ hfix1 h
          exact ⟨e1.trans hkey, e2.trans hmint⟩

end Assemble

/-! ## Claim theorems -/

section Claims
open Partition Assemble

/-- Claim C10: `update_token_instruction` never modifies `metadata_key`,
`edition_status`, `limited_edition` or `glazing`, and
`update_metadata_instruction` never modifies `mint_key`, `current_owner` or
`current_account`. -/
theorem claim_C10_updater_frames (b : Assemble.Bonbon)
    (i : CompiledInstruction) (keys : List Key)
    (owners : List TransactionTokenOwnerMeta) (b' b'' : Assemble.Bonbon) :
    (update_token_instruction b i keys owners = .ok b' →
      b'.metadata_key = b.metadata_key ∧ b'.edition_status = b.edition_status ∧
      b'.limited_edition = b.limited_edition ∧ b'.glazing = b.glazing) ∧
    (update_metadata_instruction b i keys owners = .ok b'' →
      b''.mint_key = b.mint_key ∧ b''.current_owner = b.current_owner ∧
      b''.current_account = b.current_account) := by
  constructor
  · intro h
    exact update_token_shape b i keys owners b' h
  · intro h
    obtain ⟨h1, h2, h3, -⟩ := update_metadata_shape b i keys owners b'' h
    exact ⟨h1, h2, h3⟩

/-- Witness for C10 at concrete successful token and metadata updates. -/
theorem claim_C10_updater_frames_witness :
    (bonbonMintedW.metadata_key = bonbonDefault.metadata_key ∧
      bonbonMintedW.edition_status = bonbonDefault.edition_status ∧
      bonbonMintedW.limited_edition = bonbonDefault.limited_edition ∧
      bonbonMintedW.glazing = bonbonDefault.glazing) ∧
    (bonbonCreatedW.mint_key = bonbonDefault.mint_key ∧
      bonbonCreatedW.current_owner = bonbonDefault.current_owner ∧
      bonbonCreatedW.current_account = bonbonDefault.current_account) :=
  ⟨(claim_C10_updater_frames bonbonDefault insInitMintW [8, spl_token_id] []
      bonbonMintedW bonbonCreatedW).1 (by decide),
   (claim_C10_updater_frames bonbonDefault stepCreateMeta.instruction
      stepCreateMeta.account_keys [] bonbonMintedW bonbonCreatedW).2 (by decide)⟩

/-- Claim C2: once a successful `update_metadata_instruction` call has set
`metadata_key` to a new, non-sentinel value, every later successful call to
`update_metadata_instruction` leaves `metadata_key` at that same value. -/
theorem claim_C2_metadata_key_immutable (b : Assemble.Bonbon)
    (i : CompiledInstruction) (keys : List Key)
    (owners : List TransactionTokenOwnerMeta) (b1 : Assemble.Bonbon)
    (L : List UpdateStep) (b2 : Assemble.Bonbon)
    (hset : update_metadata_instruction b i keys owners = .ok b1)
    (hchanged : b1.metadata_key ≠ b.metadata_key)
    (_hns : b1.metadata_key ≠ keyDefault)
    (hrest : applyMetadataUpdates b1 L = .ok b2) :
    b2.metadata_key = b1.metadata_key := by
  obtain ⟨hmint, -, -, hor, -, -, -⟩ := update_metadata_shape b i keys owners b1 hset
  have hfix : b1.metadata_key = find_metadata_account b1.mint_key := by
    rcases hor with h | h
    · exact absurd h hchanged
    · rw [h, hmint]
  exact (applyMetadataUpdates_stable L b1 b2 hfix hrest).1

/-- Witness for C2: create the metadata account, then apply a further
successful metadata update. -/
theorem claim_C2_metadata_key_immutable_witness :
    bonbonUpdatedW.metadata_key = bonbonCreatedW.metadata_key :=
  claim_C2_metadata_key_immutable bonbonDefault stepCreateMeta.instruction
    stepCreateMeta.account_keys [] bonbonCreatedW [stepUpdateMeta] bonbonUpdatedW
    (by decide) (by decide) (by decide) (by decide)

/-- Claim C9: both `apply_*_verification` operations and every successful
create-metadata or update-metadata-with-data append exactly one `Glazing`,
and the glazing length is monotone non-decreasing across any sequence of
assembler updates. -/
theorem claim_C9_glazing_growth (b : Assemble.Bonbon) (k : Key) (v : Bool)
    (i : CompiledInstruction) (keys : List Key)
    (owners : List TransactionTokenOwnerMeta) (b' : Assemble.Bonbon)
    (L : List UpdateStep) (b2 : Assemble.Bonbon) :
    (∃ g, (apply_creator_verification b k v).glazing = b.glazing ++ [g]) ∧
    (∃ g, (apply_collection_verification b k v).glazing = b.glazing ++ [g]) ∧
    (update_metadata_instruction b i keys owners = .ok b' →
      carriesNewData i.data = true → ∃ g, b'.glazing = b.glazing ++ [g]) ∧
    (applyUpdates b L = .ok b2 → b.glazing.length ≤ b2.glazing.length) := by
  refine ⟨?_, ?_, ?_, ?_⟩
  · obtain ⟨g, hg⟩ := apply_creator_glazing b k v
    exact ⟨g, by rw [hg]⟩
  · exact ⟨_, by rw [apply_collection_glazing]⟩
  · intro h hd
    exact update_metadata_newData b i keys owners b' h hd
  · intro h
    exact (applyUpdates_mono L b b2 h).2

/-- Witness for C9 at concrete inputs: a creator verification, a collection
verification, the successful `stepCreateMeta` create, and the two-step
update sequence from the default bonbon. -/
theorem claim_C9_glazing_growth_witness :
    (∃ g, (apply_creator_verification bonbonDefault 5 true).glazing =
      bonbonDefault.glazing ++ [g]) ∧
    (∃ g, (apply_collection_verification bonbonDefault 5 true).glazing =
      bonbonDefault.glazing ++ [g]) ∧
    (∃ g, bonbonCreatedW.glazing = bonbonDefault.glazing ++ [g]) ∧
    bonbonDefault.glazing.length ≤ bonbonMasterC1.glazing.length := by
  obtain ⟨h1, h2, h3, h4⟩ := claim_C9_glazing_growth bonbonDefault 5 true
    stepCreateMeta.instruction stepCreateMeta.account_keys [] bonbonCreatedW
    [stepCreateMeta, stepCreateMaster] bonbonMasterC1
  exact ⟨h1, h2, h3 (by decide) (by decide), h4 (by decide)⟩

/-- Claim C1 counterexample: from `Bonbon::default()`, two successful
assembler updates reach a bonbon with `edition_status = Master`, and a
further successful `MintNewEditionFromMasterEditionViaToken` update changes
its `edition_status` to `Limited` — so once `Master`, the status is not
stable, contradicting the claim. -/
theorem claim_C1_counterexample :
    applyUpdates bonbonDefault [stepCreateMeta, stepCreateMaster] =
      .ok bonbonMasterC1 ∧
    bonbonMasterC1.edition_status = .Master ∧
    applyUpdates bonbonMasterC1 [stepMintNewEdition] = .ok bonbonLimitedC1 ∧
    bonbonLimitedC1.edition_status = .Limited ∧
    EditionStatus.Limited ≠ EditionStatus.Master := by decide

/-- Claim C1 (amended): across any sequence of successful assembler
updates, `edition_status` never decreases in the order
`None < Master < Limited` — so `None → Master`, `None → Limited`, and also
`Master → Limited` (via the mint-new-edition variants) are the only
transitions, once `Limited` the status never changes, and a successful
`CreateMasterEdition` variant only ever moves `None` to `Master`. -/
theorem claim_C1_edition_monotone (b : Assemble.Bonbon) (L : List UpdateStep)
    (b' : Assemble.Bonbon) (i : CompiledInstruction) (keys : List Key)
    (owners : List TransactionTokenOwnerMeta) (b'' : Assemble.Bonbon) :
    (applyUpdates b L = .ok b' →
      editionRank b.edition_status ≤ editionRank b'.edition_status ∧
      (b.edition_status = .Limited → b'.edition_status = .Limited)) ∧
    (update_metadata_instruction b i keys owners = .ok b'' →
      isCreateMasterEditionVariant i.data = true →
      b.edition_status = .None ∧ b''.edition_status = .Master) := by
  constructor
  · intro h
    have hm := (applyUpdates_mono L b b' h).1
    refine ⟨hm, fun hl => ?_⟩
    rw [← editionRank_two_iff]
    rw [hl] at hm
    exact le_trans (by simp [editionRank]) hm
  · intro h hv
    exact update_metadata_createMaster b i keys owners b'' h hv

/-- Witness for the amended C1 at concrete inputs. -/
theorem claim_C1_edition_monotone_witness :
    (editionRank bonbonDefault.edition_status ≤
        editionRank bonbonMasterC1.edition_status ∧
      (bonbonDefault.edition_status = .Limited →
        bonbonMasterC1.edition_status = .Limited)) ∧
    (bonbonCreatedW.edition_status = .None ∧
      bonbonMasterC1.edition_status = .Master) :=
  ⟨(claim_C1_edition_monotone bonbonDefault [stepCreateMeta, stepCreateMaster]
      bonbonMasterC1 stepCreateMaster.instruction stepCreateMaster.account_keys
      [] bonbonMasterC1).1 (by decide),
   (claim_C1_edition_monotone bonbonCreatedW [] bonbonCreatedW
      stepCreateMaster.instruction stepCreateMaster.account_keys
      [] bonbonMasterC1).2 (by decide) (by decide)⟩

/-- Claim C7: when `metadata_key` matches `account_keys[accounts[0]]`,
processing `UnverifyCollection` succeeds and appends exactly one `Glazing`,
equal to the last one (or the default when the history is empty) with its
collection replaced by the key at `accounts[3]` and `verified = true` — the
frozen reference behavior of passing `true` on the unverify path. -/
theorem claim_C7_unverify_collection (b : Assemble.Bonbon)
    (i : CompiledInstruction) (keys : List Key)
    (owners : List TransactionTokenOwnerMeta) (k0 k3 : Key)
    (hd : i.data = .metadata .UnverifyCollection)
    (h0 : keys.get? (i.accounts.getD 0 0) = some k0)
    (h3 : keys.get? (i.accounts.getD 3 0) = some k3)
    (hm : b.metadata_key = k0) :
    update_metadata_instruction b i keys owners =
      .ok { b with glazing := b.glazing ++
            [{ b.glazing.getLastD glazingDefault with
               collection := some { address := k3, verified := true } }] } := by
  simp only [update_metadata_instruction, hd, Assemble.getAccountKey, h0, h3]
  rw [if_neg (fun hne => hne hm)]
  rw [← apply_collection_glazing]

/-- Witness for C7: unverify on the freshly created bonbon. -/
theorem claim_C7_unverify_collection_witness :
    update_metadata_instruction bonbonCreatedW insUnverifyW keysUnverifyW [] =
      .ok { bonbonCreatedW with glazing := bonbonCreatedW.glazing ++
            [{ bonbonCreatedW.glazing.getLastD glazingDefault with
               collection := some { address := 9, verified := true } }] } :=
  claim_C7_unverify_collection bonbonCreatedW insUnverifyW keysUnverifyW []
    (find_metadata_account 0) 9 (by decide) (by decide) (by decide) (by decide)

section PartitionClaims
open Partition

/-- Claim C3 counterexample: `partition_transaction` does not consult the
failed flag — on a failed transaction holding one `InitializeMint(0)` it
returns a non-empty `Ok`, not `Ok([])`. -/
theorem claim_C3_counterexample :
    txFailedC3.status.map (fun m => m.failed) = some true ∧
    partition_transaction txFailedC3 chocolatierPartitioners =
      .ok [partitionedC3] ∧
    ([partitionedC3] : List PartitionedInstruction) ≠ [] := by decide

/-- Claim C3 (amended): failed transactions are skipped by the
`chocolatier::partition` driver before `partition_transaction` is called,
so they contribute nothing to the partition output; `partition_transaction`
itself ignores the failed flag. -/
theorem claim_C3_failed_skipped (tx : Transaction) (m : TransactionStatusMeta)
    (hs : tx.status = some m) (hf : m.failed = true) :
    chocolatierPartitionStep tx = none := by
  unfold chocolatierPartitionStep
  rw [hs]
  simp [hf]

/-- Witness for the amended C3 at the concrete failed transaction. -/
theorem claim_C3_failed_skipped_witness :
    chocolatierPartitionStep txFailedC3 = none :=
  claim_C3_failed_skipped txFailedC3
    { failed := true, pre_token_balances := none,
      post_token_balances := none, inner_instructions := none } rfl rfl

/-- Unfolding of `partition_transaction` when the status meta is present. -/
theorem partition_transaction_eq (tx : Transaction)
    (ps : List InstructionPartitioner) (m : TransactionStatusMeta)
    (hs : tx.status = some m) :
    partition_transaction tx ps =
      match partitionTransactionCore tx ps m with
      | .error e => .error e
      | .ok (partitioned, transient_metas) =>
          if transient_metas.length ≠ 0 then
            .error .FailedTransientTokenAccountMatching
          else .ok partitioned := by
  unfold partition_transaction
  rw [hs]

/-- Claim C4: `partition_transaction` returns `Ok` only when the transient
overlay is empty after all instructions have been processed, and returns
`FailedTransientTokenAccountMatching` exactly when the overlay is non-empty
at that point. -/
theorem claim_C4_transient_overlay (tx : Transaction)
    (ps : List InstructionPartitioner) (m : TransactionStatusMeta)
    (hs : tx.status = some m) :
    (∀ l, partition_transaction tx ps = .ok l →
      partitionTransactionCore tx ps m = .ok (l, [])) ∧
    (∀ l ts, partitionTransactionCore tx ps m = .ok (l, ts) →
      (partition_transaction tx ps = .error .FailedTransientTokenAccountMatching ↔
        ts ≠ [])) := by
  constructor
  · intro l h
    rw [partition_transaction_eq tx ps m hs] at h
    split at h
    · exact Except.noConfusion h
    · next l0 ts2 hcore =>
        split at h
        · exact Except.noConfusion h
        · next ht =>
            injection h with h
            have hts : ts2 = [] := List.length_eq_zero.mp (not_ne_iff.mp ht)
            rw [hcore, hts, h]
  · intro l ts hcore
    rw [partition_transaction_eq tx ps m hs, hcore]
    by_cases ht : ts = []
    · subst ht
      simp
    · have hlen : ts.length ≠ 0 := by
        simpa [List.length_eq_zero] using ht
      simp [hlen, ht]

/-- Witness for C4 at the concrete S1 transaction (empty overlay). -/
theorem claim_C4_transient_overlay_witness :
    partitionTransactionCore txS1 chocolatierPartitioners emptyMetaOk =
      .ok ([partitionedS1], []) ∧
    (partition_transaction txS1 chocolatierPartitioners =
        .error .FailedTransientTokenAccountMatching ↔
      ([] : List TransactionTokenMeta) ≠ []) :=
  ⟨(claim_C4_transient_overlay txS1 chocolatierPartitioners emptyMetaOk
      rfl).1 [partitionedS1] (by decide),
   (claim_C4_transient_overlay txS1 chocolatierPartitioners emptyMetaOk
      rfl).2 [partitionedS1] [] (by decide)⟩

theorem tokenAccountMintKey_some (ctx : InstructionContext) (j : Nat)
    (mint : Key) (h : tokenAccountMintKey ctx j = .ok (some mint)) :
    ∃ meta, getTokenMetaFor ctx j = some meta ∧ meta.mint_key = mint ∧
      heuristicTokenMetaOk meta = true := by
  unfold tokenAccountMintKey at h
  split at h
  · exact Except.noConfusion h
  · next meta hmeta =>
      injection h with h
      by_cases hh : heuristicTokenMetaOk meta = true
      · rw [if_pos hh] at h
        injection h with h
        exact ⟨meta, hmeta, h, hh⟩
      · rw [if_neg hh] at h
        exact Option.noConfusion h

theorem heuristic_unpack (meta : TransactionTokenMeta)
    (h : heuristicTokenMetaOk meta = true) :
    meta.decimals = 0 ∧ amountOk meta.pre_amount = true ∧
      amountOk meta.post_amount = true := by
  have h' : (meta.decimals = 0 ∧ amountOk meta.pre_amount = true) ∧
      amountOk meta.post_amount = true := by
    simpa [heuristicTokenMetaOk, Bool.and_eq_true] using h
  exact ⟨h'.1.1, h'.1.2, h'.2⟩

/-- Claim C6: whenever `partition_token_instruction` returns a partition
key and the instruction's variant consults the token-meta index (every
variant able to return a key except `InitializeMint`, which keys off its
own `decimals` argument), the consulted `TokenMeta` is nft-shaped:
`decimals = 0` and each amount absent or the one-byte string "0"/"1", and
the key is that meta's mint. -/
theorem claim_C6_nft_heuristic (ctx : InstructionContext)
    (t : TokenInstruction) (mint : Key) (ts : List TransactionTokenMeta)
    (i : Nat) (hd : ctx.instruction.data = .token t)
    (h : partition_token_instruction ctx = .ok (some mint, ts))
    (hc : consultedMetaIndex t = some i) :
    ∃ meta, getTokenMetaFor ctx i = some meta ∧ meta.mint_key = mint ∧
      meta.decimals = 0 ∧ amountOk meta.pre_amount = true ∧
      amountOk meta.post_amount = true := by
  have hshape : ∃ meta, getTokenMetaFor ctx i = some meta ∧
      meta.mint_key = mint ∧ heuristicTokenMetaOk meta = true := by
    simp only [partition_token_instruction, hd] at h
    split at h
    all_goals simp only [consultedMetaIndex] at hc
    all_goals try exact Option.noConfusion hc
    all_goals injection hc with hc
    all_goals subst hc
    all_goals repeat' split at h
    all_goals try exact Except.noConfusion h
    all_goals try simp at h
    all_goals obtain ⟨hk, -⟩ := h
    all_goals first
      | (subst hk
         first
           | exact tokenAccountMintKey_some ctx 0 mint (by assumption)
           | exact tokenAccountMintKey_some ctx 1 mint (by assumption)
           | exact ⟨_, by assumption, rfl, by assumption⟩)
  obtain ⟨meta, h1, h2, h3⟩ := hshape
  obtain ⟨h4, h5, h6⟩ := heuristic_unpack meta h3
  exact ⟨meta, h1, h2, h4, h5, h6⟩

/-- Witness for C6 at a concrete `Transfer(amount = 1)` over an nft-shaped
token meta. -/
theorem claim_C6_nft_heuristic_witness :
    ∃ meta, getTokenMetaFor ctxTransferC6 0 = some meta ∧ meta.mint_key = 7 ∧
      meta.decimals = 0 ∧ amountOk meta.pre_amount = true ∧
      amountOk meta.post_amount = true :=
  claim_C6_nft_heuristic ctxTransferC6 (.Transfer 1) 7 [] 0 rfl (by decide) rfl

theorem findIdx_concat_of_not_mem (m : TransactionTokenMeta) (a : Nat)
    (hm : m.account_index = a) :
    ∀ (ts : List TransactionTokenMeta) (i : Nat),
    (∀ m' ∈ ts, m'.account_index ≠ a) →
    List.findIdx? (fun m' => m'.account_index == a) (ts ++ [m]) i =
      some (ts.length + i) := by
  intro ts
  induction ts with
  | nil =>
      intro i _
      simp [List.findIdx?_cons, hm]
  | cons t rest ih =>
      intro i h
      have ht : (t.account_index == a) = false := by
        simp [h t (by simp)]
      rw [List.cons_append, List.findIdx?_cons, ht]
      simp only [Bool.false_eq_true, if_false]
      rw [ih (i + 1) (fun m' hm' => h m' (by simp [hm']))]
      congr 1
      simp only [List.length_cons]
      omega

theorem closeRemove_concat (ts : List TransactionTokenMeta)
    (m : TransactionTokenMeta) (a : Nat) (hm : m.account_index = a)
    (hts : ∀ m' ∈ ts, m'.account_index ≠ a) :
    closeRemove (ts ++ [m]) a = ts := by
  unfold closeRemove
  rw [show (ts ++ [m]).findIdx? (fun m' => m'.account_index == a) =
      some (ts.length + 0) from findIdx_concat_of_not_mem m a hm ts 0 hts]
  unfold swapRemove
  rw [List.getLast?_concat, List.dropLast_concat]
  simp

/-- Claim C8 counterexample: an `InitializeAccount` whose account has no
entry in the base token-meta index, but does have one in the transient
overlay — the partitioner returns `Ok(None)` without pushing anything, so
the "no base entry implies push" reading of the claim fails. -/
theorem claim_C8_counterexample :
    ctxInitC8.token_metas.find? (fun m =>
      m.account_index == ctxInitC8.instruction.accounts.getD 0 0) = none ∧
    ctxInitC8.transient_metas = [metaTransientC8] ∧
    partition_token_instruction ctxInitC8 = .ok (none, [metaTransientC8]) ∧
    ([metaTransientC8] : List TransactionTokenMeta).length ≠
      ctxInitC8.transient_metas.length + 1 := by decide

/-- Claim C8 (amended): an `InitializeAccount`/`InitializeAccount2` whose
account has no entry in the base index nor in the transient overlay pushes
the synthetic transient meta and returns `Ok(None)`; a `CloseAccount`
returns `Ok(None)` after removing the first transient entry with the same
account index (removing exactly the pushed entry when it is the only
match); in the concrete init-then-close transaction, `partition_transaction`
succeeds with neither instruction in the output. -/
theorem claim_C8_transient_lifecycle (ctx ctx' : InstructionContext)
    (mint : Key) (ts : List TransactionTokenMeta)
    (m : TransactionTokenMeta) (a : Nat) :
    ((ctx.instruction.data = .token .InitializeAccount ∨
      ctx.instruction.data = .token .InitializeAccount2) →
      getTokenMetaFor ctx 0 = none →
      Partition.getAccountKey ctx.instruction ctx.account_keys 1 =
        Except.ok mint →
      partition_token_instruction ctx = .ok (none, ctx.transient_metas ++
        [{ account_index := ctx.instruction.accounts.getD 0 0, decimals := 1,
           pre_amount := none, post_amount := none, mint_key := mint }])) ∧
    (ctx'.instruction.data = .token .CloseAccount →
      partition_token_instruction ctx' =
        .ok (none, closeRemove ctx'.transient_metas
          (ctx'.instruction.accounts.getD 0 0))) ∧
    (m.account_index = a → (∀ m' ∈ ts, m'.account_index ≠ a) →
      closeRemove (ts ++ [m]) a = ts) ∧
    partition_transaction txInitCloseC8 chocolatierPartitioners = .ok [] := by
  refine ⟨?_, ?_, ?_, by decide⟩
  · intro hd hmeta hgak
    rcases hd with hd | hd <;>
      simp only [partition_token_instruction, hd, hmeta,
        addTransientTokenMeta, hgak]
  · intro hd
    simp only [partition_token_instruction, hd]
  · exact closeRemove_concat ts m a

/-- Witness for the amended C8 at the concrete init and close contexts. -/
theorem claim_C8_transient_lifecycle_witness :
    partition_token_instruction ctxInitFreshC8 =
      .ok (none, ctxInitFreshC8.transient_metas ++
        [{ account_index := ctxInitFreshC8.instruction.accounts.getD 0 0,
           decimals := 1, pre_amount := none, post_amount := none,
           mint_key := 8 }]) ∧
    partition_token_instruction ctxCloseC8 =
      .ok (none, closeRemove ctxCloseC8.transient_metas
        (ctxCloseC8.instruction.accounts.getD 0 0)) ∧
    closeRemove ([] ++ [metaTransientC8]) 0 = [] ∧
    partition_transaction txInitCloseC8 chocolatierPartitioners = .ok [] := by
  obtain ⟨h1, h2, h3, h4⟩ := claim_C8_transient_lifecycle ctxInitFreshC8
    ctxCloseC8 8 [] metaTransientC8 0
  exact ⟨h1 (Or.inl (by decide)) (by decide) (by decide), h2 (by decide),
    h3 rfl (by decide), h4⟩

theorem tryPartition_mem (ps : List InstructionPartitioner) (keys : List Key)
    (tms : List TransactionTokenMeta) (ins : CompiledInstruction) (oi : Nat)
    (ii : Option Nat) (ts : List TransactionTokenMeta)
    (l : List PartitionedInstruction) (ts' : List TransactionTokenMeta)
    (h : tryPartitionInstruction ps keys tms ins oi ii ts = .ok (l, ts')) :
    ∀ e ∈ l, e.outer_index = oi ∧ e.inner_index = ii := by
  unfold tryPartitionInstruction at h
  repeat' split at h
  all_goals try exact Except.noConfusion h
  all_goals
    simp only [Except.ok.injEq, Prod.mk.injEq] at h
  all_goals obtain ⟨h1, -⟩ := h
  all_goals subst h1
  all_goals intro e he
  all_goals first
    | exact absurd he (List.not_mem_nil e)
    | (rw [List.mem_singleton] at he
       subst he
       exact ⟨rfl, rfl⟩)

theorem processInnerGroup_mem (ps : List InstructionPartitioner)
    (keys : List Key) (tms : List TransactionTokenMeta) (oi : Nat) :
    ∀ (il : List CompiledInstruction) (ii : Nat)
      (ts : List TransactionTokenMeta) (l : List PartitionedInstruction)
      (ts' : List TransactionTokenMeta),
    processInnerGroup ps keys tms oi il ii ts = .ok (l, ts') →
    ∀ e ∈ l, e.outer_index = oi ∧ e.inner_index ≠ none := by
  intro il
  induction il with
  | nil =>
      intro ii ts l ts' h e he
      unfold processInnerGroup at h
      simp only [Except.ok.injEq, Prod.mk.injEq] at h
      obtain ⟨h1, -⟩ := h
      subst h1
      exact absurd he (List.not_mem_nil e)
  | cons i rest ih =>
      intro ii ts l ts' h e he
      unfold processInnerGroup at h
      split at h
      · exact Except.noConfusion h
      · next l1 ts1 heq1 =>
          split at h
          · exact Except.noConfusion h
          · next l2 ts2 heq2 =>
              simp only [Except.ok.injEq, Prod.mk.injEq] at h
              obtain ⟨h1, -⟩ := h
              subst h1
              rw [List.mem_append] at he
              rcases he with he | he
              · obtain ⟨ho, hi⟩ :=
                  tryPartition_mem ps keys tms i oi (some ii) ts l1 ts1 heq1 e he
                refine ⟨ho, ?_⟩
                rw [hi]
                simp
              · exact ih (ii + 1) ts1 l2 ts2 heq2 e he

theorem processOuters_shape (ps : List InstructionPartitioner)
    (keys : List Key) (tms : List TransactionTokenMeta) :
    ∀ (outers : List CompiledInstruction) (inners : List InnerInstructions)
      (oi : Nat) (ts : List TransactionTokenMeta)
      (l : List PartitionedInstruction) (ts' : List TransactionTokenMeta),
    processOuters ps keys tms outers inners oi ts = .ok (l, ts') →
    (∀ e ∈ l, oi ≤ e.outer_index) ∧ InnerBeforeOuter l := by
  intro outers
  induction outers with
  | nil =>
      intro inners oi ts l ts' h
      simp only [processOuters] at h
      simp only [Except.ok.injEq, Prod.mk.injEq] at h
      obtain ⟨h1, -⟩ := h
      subst h1
      exact ⟨fun e he => absurd he (List.not_mem_nil e), List.Pairwise.nil⟩
  | cons ins rest ih =>
      intro inners oi ts l ts' h
      simp only [processOuters] at h
      split at h
      · exact Except.noConfusion h
      · next l1 ts1 heq1 =>
          split at h
          · exact Except.noConfusion h
          · next l2 ts2 heq2 =>
              split at h
              · exact Except.noConfusion h
              · next l3 ts3 heq3 =>
                  simp only [Except.ok.injEq, Prod.mk.injEq] at h
                  obtain ⟨h1, -⟩ := h
                  subst h1
                  have f1 := processInnerGroup_mem ps keys tms oi _ 0 ts l1 ts1 heq1
                  have f2 := tryPartition_mem ps keys tms ins oi none ts1 l2 ts2 heq2
                  obtain ⟨f3a, f3b⟩ := ih _ (oi + 1) ts2 l3 ts3 heq3
                  constructor
                  · intro e he
                    rw [List.mem_append, List.mem_append] at he
                    rcases he with (he | he) | he
                    · exact le_of_eq (f1 e he).1.symm
                    · exact le_of_eq (f2 e he).1.symm
                    · exact le_trans (Nat.le_succ oi) (f3a e he)
                  · unfold InnerBeforeOuter
                    rw [List.append_assoc, List.pairwise_append]
                    refine ⟨?_, ?_, ?_⟩
                    · exact List.pairwise_of_forall_mem_list
                        (fun a ha b hb hcon => (f1 a ha).2 hcon.2.1)
                    · rw [List.pairwise_append]
                      refine ⟨?_, f3b, ?_⟩
                      · exact List.pairwise_of_forall_mem_list
                          (fun a ha b hb hcon => hcon.2.2 (f2 b hb).2)
                      · intro a ha b hb hcon
                        have h1 := (f2 a ha).1
                        have h2 := f3a b hb
                        rw [hcon.1] at h1
                        rw [← h1] at h2
                        omega
                    · intro a ha b hb
                      rw [List.mem_append] at hb
                      intro hcon
                      exact (f1 a ha).2 hcon.2.1

/-- Claim C5: in any successful `partition_transaction` output, entries
with `inner_index = some _` precede the entry with `inner_index = none` of
the same `outer_index`. -/
theorem claim_C5_inner_before_outer (tx : Transaction)
    (ps : List InstructionPartitioner) (l : List PartitionedInstruction)
    (h : partition_transaction tx ps = .ok l) : InnerBeforeOuter l := by
  unfold partition_transaction at h
  split at h
  · exact Except.noConfusion h
  · next m hm =>
      split at h
      · exact Except.noConfusion h
      · next l0 ts hcore =>
          split at h
          · exact Except.noConfusion h
          · injection h with h
            subst h
            unfold partitionTransactionCore at hcore
            exact (processOuters_shape ps tx.account_keys _ tx.instructions _
              0 [] l0 ts hcore).2

/-- Witness for C5 at a transaction with one inner group and one outer
instruction. -/
theorem claim_C5_inner_before_outer_witness : InnerBeforeOuter partitionedC5 :=
  claim_C5_inner_before_outer txInnerC5 chocolatierPartitioners partitionedC5
    (by decide)

end PartitionClaims
